import Mathlib

/-!
Verification of the Respawn Prediction & Contribution Ledger core of the
rotate-mmo-site repository (TypeScript, Express + Supabase).

Shallow embedding conventions:
* Timestamps are integers counting milliseconds since the Unix epoch —
  exactly the instant stored by JavaScript `Date` and moment.js objects
  (ISO-8601 strings in the database carry millisecond precision).
* `moment.diff(_, 'seconds' / 'minutes')` divides the millisecond delta and
  truncates toward zero (moment's `absFloor`); we model it with `Int.div`.
* Statistical quantities (mean interval, variance) are rationals.
* The fallible service operations return a success flag together with the
  updated store state; rejected requests leave the state untouched.
-/

set_option autoImplicit false

namespace RotateMMO

/-- moment's `absFloor`: round toward zero (`Math.ceil` for negatives,
`Math.floor` otherwise), applied by `diff` to fractional unit counts. -/
def absFloor (q : ℚ) : ℤ :=
  if q < 0 then ⌈q⌉ else ⌊q⌋

/-- `moment(a).diff(moment(b), 'seconds')` for instants `a`, `b` in ms. -/
def diffSeconds (a b : ℤ) : ℤ := Int.tdiv (a - b) 1000

/-- `moment(a).diff(moment(b), 'minutes')` for instants `a`, `b` in ms. -/
def diffMinutes (a b : ℤ) : ℤ := Int.tdiv (a - b) 60000

/-- `moment(t).add(m, 'minutes')` for a whole number of minutes. -/
def addMinutes (t : ℤ) (m : ℤ) : ℤ := t + m * 60000

/-- `src/types`: the fields of `Boss` read by the timer and spawn logic.
`respawn_time` is in minutes; `last_spawn` / `next_spawn` are nullable. -/
structure Boss where
  id : String
  name : String
  respawn_time : ℤ
  last_spawn : Option ℤ
  next_spawn : Option ℤ
  server : String
  deriving Repr, DecidableEq

/-- `src/types`: the fields of `SpawnEvent` read by the core logic.
An absent `participants` array behaves exactly like an empty one in every
use site (`!event.participants || event.participants.length === 0`), so it
is modelled as a plain list. -/
structure SpawnEvent where
  id : String
  boss_id : String
  spawn_time : ℤ
  reported_by : String
  verified : Bool
  server : String
  notes : Option String
  participants : List String
  deriving Repr, DecidableEq

/-- `src/types`: `RespawnTimer` (`last_spawn` keeps its nullability; the
code renders `boss.last_spawn || ''`). -/
structure RespawnTimer where
  boss_id : String
  boss_name : String
  server : String
  last_spawn : Option ℤ
  next_spawn : ℤ
  time_remaining : ℤ
  is_active : Bool
  deriving Repr, DecidableEq

/-- `TimerUtils.calculateNextSpawn` (src/utils/timer.ts:5-18).
`now` is the injected clock reading used by the `moment()` call of the
bootstrap branch. -/
def calculateNextSpawn (now : ℤ) (boss : Boss) (lastSpawnEvent : Option SpawnEvent) : ℤ :=
  match lastSpawnEvent with
  | some ev => addMinutes ev.spawn_time boss.respawn_time
  | none =>
    match boss.last_spawn with
    | some ls => addMinutes ls boss.respawn_time
    | none => addMinutes now boss.respawn_time

/-- `TimerUtils.calculateTimeRemaining` (src/utils/timer.ts:20-25). -/
def calculateTimeRemaining (now : ℤ) (nextSpawn : ℤ) : ℤ :=
  max 0 (diffSeconds nextSpawn now)

/-- `TimerUtils.isBossActive` (src/utils/timer.ts:27-30): reads the boss
record's stored `next_spawn` field. -/
def isBossActive (now : ℤ) (boss : Boss) : Bool :=
  match boss.next_spawn with
  | none => false
  | some ns => decide (now < ns)

/-- `TimerUtils.getRespawnTimer` (src/utils/timer.ts:32-47). -/
def getRespawnTimer (now : ℤ) (boss : Boss) (lastSpawnEvent : Option SpawnEvent) : RespawnTimer :=
  let nextSpawn := calculateNextSpawn now boss lastSpawnEvent
  let timeRemaining := calculateTimeRemaining now nextSpawn
  let isActive := isBossActive now boss
  { boss_id := boss.id
    boss_name := boss.name
    server := boss.server
    last_spawn := boss.last_spawn
    next_spawn := nextSpawn
    time_remaining := timeRemaining
    is_active := isActive }

/-- Notification lead-time units: `type: 'minutes' | 'seconds'`. -/
inductive TimingUnit where
  | minutes
  | seconds
  deriving Repr, DecidableEq

/-- Milliseconds per unit (moment durations for these units are exact). -/
def TimingUnit.ms : TimingUnit → ℤ
  | .minutes => 60000
  | .seconds => 1000

/-- `NotificationTiming` from `src/types`. -/
structure NotificationTiming where
  type : TimingUnit
  value : ℤ
  deriving Repr, DecidableEq

/-- The string key `` `${type}_${value}` `` recorded in `sentNotifications`
identifies exactly the (unit, value) pair, so the key is modelled as that
pair. -/
def notificationKey (timing : NotificationTiming) : TimingUnit × ℤ :=
  (timing.type, timing.value)

/-- `TimerUtils.getTimeUntilNotification` (src/utils/timer.ts:59-65):
subtract the lead time from `next_spawn`, then whole-second difference to
`now` (truncated toward zero). -/
def getTimeUntilNotification (now : ℤ) (nextSpawn : ℤ) (timing : NotificationTiming) : ℤ :=
  diffSeconds (nextSpawn - timing.value * timing.type.ms) now

/-- `TimerUtils.shouldSendNotification` (src/utils/timer.ts:67-72). -/
def shouldSendNotification (now : ℤ) (nextSpawn : ℤ) (timing : NotificationTiming)
    (sentNotifications : List (TimingUnit × ℤ)) : Bool :=
  getTimeUntilNotification now nextSpawn timing ≤ 0
    && !(sentNotifications.contains (notificationKey timing))

/-- The ascending sort `spawnEvents.sort((a, b) =>
moment(a.spawn_time).diff(moment(b.spawn_time)))` used by the statistics
functions. -/
def sortEventsAsc (spawnEvents : List SpawnEvent) : List SpawnEvent :=
  List.insertionSort (fun a b => a.spawn_time ≤ b.spawn_time) spawnEvents

/-- The descending sort `spawnEvents.sort((a, b) =>
moment(b.spawn_time).diff(moment(a.spawn_time)))` used by
`predictSpawnTimes`. -/
def sortEventsDesc (spawnEvents : List SpawnEvent) : List SpawnEvent :=
  List.insertionSort (fun a b => b.spawn_time ≤ a.spawn_time) spawnEvents

/-- The interval-collecting loop (`for i = 1; i < sorted.length; i++`):
whole-minute differences between consecutive events. -/
def consecutiveIntervals : List SpawnEvent → List ℤ
  | [] => []
  | [_] => []
  | a :: b :: rest => diffMinutes b.spawn_time a.spawn_time :: consecutiveIntervals (b :: rest)

/-- `intervals.reduce((sum, i) => sum + i, 0) / intervals.length`.
Every caller guards the length first, so the `0/0` case is unreachable
(ℚ division by zero yields 0 where JS would yield NaN). -/
def averageOf (l : List ℤ) : ℚ := (l.sum : ℚ) / l.length

/-- `intervals.reduce((sum, i) => sum + Math.pow(i - avg, 2), 0) /
intervals.length` — the population variance. -/
def varianceOf (l : List ℤ) : ℚ :=
  (l.map (fun i => ((i : ℚ) - averageOf l) ^ 2)).sum / l.length

/-- `TimerUtils.calculateSpawnAccuracy` (src/utils/timer.ts:74-90). -/
def calculateSpawnAccuracy (boss : Boss) (spawnEvents : List SpawnEvent) : ℤ :=
  if spawnEvents.length < 2 then 0
  else
    let actualIntervals := consecutiveIntervals (sortEventsAsc spawnEvents)
    let averageInterval := averageOf actualIntervals
    let expectedInterval : ℚ := boss.respawn_time
    let accuracy := max 0 (100 - |averageInterval - expectedInterval| / expectedInterval * 100)
    round accuracy

/-- The prediction loop of `predictSpawnTimes`: `lastSpawn` is re-assigned
to `lastSpawn.add(respawn_time, 'minutes')` before each push. -/
def predictFrom (respawnTime : ℤ) : ℤ → ℕ → List ℤ
  | _, 0 => []
  | t, n + 1 =>
    let t2 := addMinutes t respawnTime
    t2 :: predictFrom respawnTime t2 n

/-- `TimerUtils.predictSpawnTimes` (src/utils/timer.ts:92-106); the TS
signature declares `count: number = 5`. -/
def predictSpawnTimes (boss : Boss) (spawnEvents : List SpawnEvent) (count : ℕ := 5) : List ℤ :=
  match (sortEventsDesc spawnEvents).head? with
  | none => []
  | some lastEvent => predictFrom boss.respawn_time lastEvent.spawn_time count

/-- A `{ start, end, confidence }` window (field `stop` stands for the TS
field `end`, a Lean keyword). Times are rational ms because the mean
interval added by `moment.add(averageInterval, 'minutes')` need not be a
whole number of ms. -/
structure SpawnWindow where
  start : ℚ
  stop : ℚ
  confidence : ℤ
  deriving Repr, DecidableEq

/-- One iteration of the window loop of `getSpawnWindows`
(src/utils/timer.ts:128-140). moment objects are mutable and
`subtract`/`add` return the receiver, so `windowStart`, `windowEnd` and
`nextSpawn` are three names for one object; its value when
`toISOString()` runs inside `windows.push` is the value after both the
subtract and the add, i.e. the original `nextSpawn` value. -/
def windowStep (standardDeviation averageInterval : ℚ) (nextSpawn : ℚ) : SpawnWindow × ℚ :=
  let afterSubtract := nextSpawn - standardDeviation * 60000
  let afterAdd := afterSubtract + standardDeviation * 60000
  let confidence := max 0 (100 - standardDeviation / averageInterval * 100)
  ({ start := afterAdd, stop := afterAdd, confidence := round confidence },
    afterAdd + averageInterval * 60000)

/-- `TimerUtils.getSpawnWindows` (src/utils/timer.ts:108-143).
`standardDeviation` stands for `Math.sqrt(variance)`; the theorems that
use this definition certify it with the side conditions
`0 ≤ standardDeviation` and `standardDeviation ^ 2 = varianceOf intervals`
so that the exact value replaces the floating-point square root. -/
def getSpawnWindows (_boss : Boss) (spawnEvents : List SpawnEvent)
    (standardDeviation : ℚ) : List SpawnWindow :=
  if spawnEvents.length < 3 then []
  else
    let sorted := sortEventsAsc spawnEvents
    let intervals := consecutiveIntervals sorted
    let averageInterval := averageOf intervals
    match sorted.getLast? with
    | none => []
    | some lastEvent =>
      let n0 : ℚ := (lastEvent.spawn_time : ℚ) + averageInterval * 60000
      let s1 := windowStep standardDeviation averageInterval n0
      let s2 := windowStep standardDeviation averageInterval s1.2
      let s3 := windowStep standardDeviation averageInterval s2.2
      [s1.1, s2.1, s3.1]

/-- The JS whitespace characters that can occur in this development;
`String.prototype.trim` strips them from both ends. -/
def jsWhitespace (c : Char) : Bool :=
  c == ' ' || c == '\t' || c == '\n' || c == '\r'

/-- Trim whitespace from both ends of a character list. -/
def trimChars (l : List Char) : List Char :=
  ((l.dropWhile jsWhitespace).reverse.dropWhile jsWhitespace).reverse

/-- `ValidationUtils.sanitizeString`: `input.trim().replace(/[<>]/g, '')`. -/
def sanitizeString (s : String) : String :=
  String.mk ((trimChars s.data).filter (fun c => !(c == '<' || c == '>')))

/-- `CreateSpawnEventRequest` from `src/types`, together with the two JSON
properties `verified` and `reported_by` that a client may add to the
payload: TypeScript interfaces are erased at runtime, and
`SpawnService.createSpawnEvent` spreads the raw object (`{...data}`),
writing `reported_by` and `verified` after the spread so that they
override any payload value. The embedding keeps the two extra fields to
state that they are ignored. -/
structure CreateSpawnEventRequest where
  boss_id : String
  spawn_time : ℤ
  server : String
  notes : Option String
  verified : Option Bool
  reported_by : Option String
  deriving Repr, DecidableEq

/-- `s.trim().length === 0`: true when the string is empty or all
whitespace. -/
def isBlank (s : String) : Bool :=
  (trimChars s.data).isEmpty

/-- `ValidationUtils.validateSpawnEventData` restricted to the modelled
fields: boss_id and server must be non-blank, and spawn_time must not lie
more than 30 days (2 592 000 000 ms) before `now`. The coordinate shape
checks concern a field the embedding does not carry. -/
def validateSpawnEventData (now : ℤ) (data : CreateSpawnEventRequest) : Bool :=
  !(isBlank data.boss_id)
    && !(data.spawn_time < now - 2592000000 : Bool)
    && !(isBlank data.server)

/-- The record store rows that `SpawnService.createSpawnEvent` touches. -/
structure SpawnStore where
  bosses : List Boss
  events : List SpawnEvent
  deriving Repr, DecidableEq

/-- `supabase.from('bosses').select().eq('id', id).single()`. -/
def getBossById (s : SpawnStore) (id : String) : Option Boss :=
  s.bosses.find? (fun b => b.id == id)

/-- The duplicate-report query of `SpawnService.createSpawnEvent`
(src/services/SpawnService.ts:110-119). The service passes
`spawn_time: { '>=': t − 5·60000, '<=': t + 5·60000 }`, but
`SupabaseClientWrapper.buildQuery` dispatches the operator object through
an else-if chain in which the `'>='` branch fires first and returns, so
the `'<='` bound is never applied: the query matches every event of the
boss from `t − 5·60000` on, with no upper bound. -/
def duplicateSpawnQuery (s : SpawnStore) (bossId : String) (t : ℤ) : List SpawnEvent :=
  s.events.filter (fun e => e.boss_id == bossId && decide (t - 5 * 60000 ≤ e.spawn_time))

/-- Outcome of `SpawnService.createSpawnEvent`: the resulting store state,
the `success` flag of the `ApiResponse`, and the persisted event (the
response `data`). -/
structure CreateSpawnResult where
  store : SpawnStore
  success : Bool
  data : Option SpawnEvent
  deriving Repr, DecidableEq

/-- The `spawnEventData` object built by `SpawnService.createSpawnEvent`
(src/services/SpawnService.ts:128-133): the spread of the request
followed by the explicit `reported_by`, `verified` and `notes`
assignments, which override any payload values of those properties.
`newId` is the store-assigned identifier of the inserted row. -/
def newSpawnEvent (data : CreateSpawnEventRequest) (userId : String) (newId : String) : SpawnEvent :=
  { id := newId
    boss_id := data.boss_id
    spawn_time := data.spawn_time
    reported_by := userId
    verified := false
    server := data.server
    notes := match data.notes with
      | some nts => if nts == "" then none else some (sanitizeString nts)
      | none => none
    participants := [] }

/-- `SpawnService.createSpawnEvent` (src/services/SpawnService.ts:90-156).
`now` is the clock reading, `newId` the store-assigned identifier of the
inserted row. Every rejection path returns the store unchanged. -/
def createSpawnEvent (now : ℤ) (s : SpawnStore) (data : CreateSpawnEventRequest)
    (userId : String) (newId : String) : CreateSpawnResult :=
  if !(validateSpawnEventData now data) then ⟨s, false, none⟩
  else
    match getBossById s data.boss_id with
    | none => ⟨s, false, none⟩
    | some boss =>
      if !(duplicateSpawnQuery s data.boss_id data.spawn_time).isEmpty then ⟨s, false, none⟩
      else
        let spawnEvent : SpawnEvent := newSpawnEvent data userId newId
        let nextSpawn := calculateNextSpawn now boss (some spawnEvent)
        let bosses := s.bosses.map (fun b =>
          if b.id == data.boss_id then
            { b with last_spawn := some data.spawn_time, next_spawn := some nextSpawn }
          else b)
        ⟨⟨bosses, s.events ++ [spawnEvent]⟩, true, some spawnEvent⟩

/-- `GuildMemberContribution` from `src/types`. -/
structure Contribution where
  id : String
  guild_id : String
  member_name : String
  member_id : Option String
  contribution_score : ℤ
  last_event_date : Option ℤ
  deriving Repr, DecidableEq

/-- The lookup `getGuildMemberContributions({ filter: { guild_id,
member_name }, perPage: 1 })`: first stored row with both fields equal. -/
def findContribution (cs : List Contribution) (guildId memberName : String) : Option Contribution :=
  cs.find? (fun c => c.guild_id == guildId && c.member_name == memberName)

/-- Outcome of `ContributionService.incrementContribution`. -/
structure IncrementResult where
  contributions : List Contribution
  success : Bool
  data : Option Contribution
  deriving Repr, DecidableEq

/-- `ContributionService.incrementContribution`
(src/services/ContributionService.ts:266-327). When a row exists, the
update sets `contribution_score := (existing.contribution_score || 0) + 1`
(the `|| 0` guards a missing value and maps a stored 0 to 0, so the sum is
the score plus one either way) and sets `last_event_date := eventDate`
whenever `eventDate` is supplied — with no comparison against the stored
date. The store applies the update to the row with `existing.id` and
returns it. When no row exists, a new row is inserted with the sanitized
member name, score 1, and `eventDate || now` as last event date. -/
def incrementContribution (now : ℤ) (cs : List Contribution) (guildId memberName : String)
    (memberId : Option String) (eventDate : Option ℤ) (newId : String) : IncrementResult :=
  if guildId == "" || memberName == "" then ⟨cs, false, none⟩
  else
    match findContribution cs guildId memberName with
    | some existing =>
      let updatedRow : Contribution :=
        { existing with
          contribution_score := existing.contribution_score + 1
          last_event_date := match eventDate with
            | some d => some d
            | none => existing.last_event_date }
      let cs2 := cs.map (fun c =>
        if c.id == existing.id then
          { c with
            contribution_score := existing.contribution_score + 1
            last_event_date := match eventDate with
              | some d => some d
              | none => c.last_event_date }
        else c)
      ⟨cs2, true, some updatedRow⟩
    | none =>
      let newRow : Contribution :=
        { id := newId
          guild_id := guildId
          member_name := sanitizeString memberName
          member_id := memberId
          contribution_score := 1
          last_event_date := some (eventDate.getD now) }
      ⟨cs ++ [newRow], true, some newRow⟩

/-- One cell of the `contributionCounts` record built by
`recalculateGuildContributions`. -/
structure TallyEntry where
  count : ℕ
  lastEventDate : Option ℤ
  deriving Repr, DecidableEq

/-- The `lastEventDate` update: keep the more recent of the stored date
and the event date (`if (!lastDate || eventDate > lastDate)`). -/
def pushDate : Option ℤ → ℤ → Option ℤ
  | none, t => some t
  | some d, t => some (if d < t then t else d)

/-- Update the tally for one participant occurrence in an event with
spawn time `t`, preserving first-occurrence insertion order (JS object
key order). -/
def bumpTally (t : ℤ) : List (String × TallyEntry) → String → List (String × TallyEntry)
  | [], p => [(p, ⟨1, pushDate none t⟩)]
  | (q, e) :: rest, p =>
    if q == p then (q, ⟨e.count + 1, pushDate e.lastEventDate t⟩) :: rest
    else (q, e) :: bumpTally t rest p

/-- The double loop of `recalculateGuildContributions` that tallies
occurrences per participant name (events with an empty participant list
are skipped). -/
def tallyEvents (events : List SpawnEvent) : List (String × TallyEntry) :=
  events.foldl (fun acc ev =>
    if ev.participants.isEmpty then acc
    else ev.participants.foldl (bumpTally ev.spawn_time) acc) []

/-- The store-side update of one Contribution row during the write-back
loop: the service updates the row whose id was returned by the
(guild_id, member_name) lookup, i.e. — ids being unique in the store —
exactly the first row matching both fields. -/
def updateFirstContribution (guildId memberName : String) (score : ℤ) (led : Option ℤ) :
    List Contribution → List Contribution
  | [] => []
  | c :: rest =>
    if c.guild_id == guildId && c.member_name == memberName then
      { c with contribution_score := score, last_event_date := led } :: rest
    else c :: updateFirstContribution guildId memberName score led rest

/-- The write-back loop of `recalculateGuildContributions`: for each
tallied name, overwrite the existing row or insert a fresh one (the id of
an inserted row is store-assigned and never read back by the
recalculation, so it is left blank here). -/
def writeTally (guildId : String) (cs : List Contribution) :
    List (String × TallyEntry) → List Contribution :=
  List.foldl (fun acc entry =>
    match findContribution acc guildId entry.1 with
    | some _ => updateFirstContribution guildId entry.1 entry.2.count entry.2.lastEventDate acc
    | none =>
      acc ++ [{ id := ""
                guild_id := guildId
                member_name := entry.1
                member_id := none
                contribution_score := entry.2.count
                last_event_date := entry.2.lastEventDate }]) cs

/-- `ContributionService.recalculateGuildContributions`
(src/services/ContributionService.ts:332-421). `guilds` is the set of
guild ids known to the store (`getGuild` lookup); `events` is the item
list returned by the store's spawn-event query — the query requests rows
with a non-empty participant list sorted by descending spawn time, and
the loop re-checks non-emptiness, so the scan filters on participants
here while the row order (which no tallied value depends on) is the
store's. Returns the new contribution table and the `success` flag. -/
def recalculateGuildContributions (guilds : List String) (guildId : String)
    (events : List SpawnEvent) (cs : List Contribution) : List Contribution × Bool :=
  if guildId == "" then (cs, false)
  else if !(guilds.contains guildId) then (cs, false)
  else
    (writeTally guildId cs
      (tallyEvents (events.filter (fun e => !e.participants.isEmpty))), true)

/-! ## Helper lemmas -/

/-- Characterization of a successful `createSpawnEvent` call: some boss
was found and the result is the success branch of the code. -/
theorem createSpawnEvent_success_elim {now : ℤ} {s : SpawnStore}
    {data : CreateSpawnEventRequest} {userId newId : String}
    (h : (createSpawnEvent now s data userId newId).success = true) :
    ∃ boss, getBossById s data.boss_id = some boss ∧
      createSpawnEvent now s data userId newId =
        ⟨⟨s.bosses.map (fun b =>
            if b.id == data.boss_id then
              { b with last_spawn := some data.spawn_time,
                       next_spawn := some (calculateNextSpawn now boss
                         (some (newSpawnEvent data userId newId))) }
            else b),
          s.events ++ [newSpawnEvent data userId newId]⟩,
         true, some (newSpawnEvent data userId newId)⟩ := by
  unfold createSpawnEvent at h ⊢
  by_cases hv : validateSpawnEventData now data
  · simp only [hv, Bool.not_true, Bool.false_eq_true, if_false] at h ⊢
    cases hfind : getBossById s data.boss_id with
    | none => rw [hfind] at h; simp at h
    | some boss =>
      rw [hfind] at h
      refine ⟨boss, rfl, ?_⟩
      by_cases hd : (duplicateSpawnQuery s data.boss_id data.spawn_time).isEmpty
      · simp [hd]
      · simp [hd] at h
  · simp [hv] at h

/-! ## Sample data used by witnesses and counterexamples -/

/-- A boss with a 60-minute respawn interval and no recorded spawns. -/
def sampleBoss : Boss := ⟨"b1", "Dragon", 60, none, none, "s1"⟩

/-- The same boss with `last_spawn` recorded at the epoch. -/
def sampleBossWithLast : Boss := ⟨"b1", "Dragon", 60, some 0, none, "s1"⟩

/-- A spawn report for `sampleBoss` at t = 1000 ms whose payload tries to
smuggle `verified: true` and a foreign `reported_by` value. -/
def sampleRequest : CreateSpawnEventRequest := ⟨"b1", 1000, "s1", none, some true, some "mallory"⟩

/-- A store holding `sampleBoss` and no events. -/
def emptyStore : SpawnStore := ⟨[sampleBoss], []⟩

/-! ## C1 — next-spawn computation -/

/-- C1: for a boss with configured interval N minutes, an accepted spawn
report with spawn_time T rewrites the stored boss row(s) to
`last_spawn = T` and `next_spawn = T + N` minutes; without a new event,
`calculateNextSpawn` yields `last_spawn + N` when a prior `last_spawn`
exists, and `now + N` otherwise (first-report bootstrap). -/
theorem claim1_next_spawn :
    (∀ (now : ℤ) (s : SpawnStore) (data : CreateSpawnEventRequest) (userId newId : String)
        (boss : Boss), getBossById s data.boss_id = some boss →
      (createSpawnEvent now s data userId newId).success = true →
      ∀ b ∈ (createSpawnEvent now s data userId newId).store.bosses,
        b.id = data.boss_id →
          b.last_spawn = some data.spawn_time ∧
          b.next_spawn = some (addMinutes data.spawn_time boss.respawn_time)) ∧
    (∀ (now : ℤ) (boss : Boss) (S : ℤ), boss.last_spawn = some S →
      calculateNextSpawn now boss none = addMinutes S boss.respawn_time) ∧
    (∀ (now : ℤ) (boss : Boss), boss.last_spawn = none →
      calculateNextSpawn now boss none = addMinutes now boss.respawn_time) := by
  refine ⟨?_, ?_, ?_⟩
  · intro now s data userId newId boss hb hs b hmem hid
    obtain ⟨boss2, hb2, heq⟩ := createSpawnEvent_success_elim hs
    rw [hb] at hb2
    cases hb2
    rw [heq] at hmem
    simp only at hmem
    rcases List.mem_map.mp hmem with ⟨a, _, rfl⟩
    by_cases ha : a.id == data.boss_id
    · simp [ha, calculateNextSpawn, newSpawnEvent]
    · rw [if_neg (by simp [ha])] at hid ⊢
      exact absurd hid (by simpa using ha)
  · intro now boss S hS
    unfold calculateNextSpawn
    rw [hS]
  · intro now boss hS
    unfold calculateNextSpawn
    rw [hS]

/-- Witness for C1 at concrete inputs. -/
theorem claim1_next_spawn_witness :
    (∀ b ∈ (createSpawnEvent 0 emptyStore sampleRequest "u2" "e1").store.bosses,
      b.id = sampleRequest.boss_id →
        b.last_spawn = some sampleRequest.spawn_time ∧
        b.next_spawn = some (addMinutes sampleRequest.spawn_time sampleBoss.respawn_time)) ∧
    calculateNextSpawn 0 sampleBossWithLast none = addMinutes 0 sampleBossWithLast.respawn_time ∧
    calculateNextSpawn 5 sampleBoss none = addMinutes 5 sampleBoss.respawn_time :=
  ⟨claim1_next_spawn.1 0 emptyStore sampleRequest "u2" "e1" sampleBoss (by decide) (by decide),
   claim1_next_spawn.2.1 0 sampleBossWithLast 0 (by decide),
   claim1_next_spawn.2.2 5 sampleBoss (by decide)⟩

/-! ## C2 — duplicate guard -/

/-- An existing spawn event for `sampleBoss` at t = 360000 ms (6 min). -/
def farEvent : SpawnEvent := ⟨"e0", "b1", 360000, "u1", false, "s1", none, []⟩

/-- A store holding `sampleBoss` and the event 6 minutes away. -/
def dupStore : SpawnStore := ⟨[sampleBoss], [farEvent]⟩

/-- A spawn report for `sampleBoss` at t = 0, i.e. 6 minutes before the
stored event. -/
def dupRequest : CreateSpawnEventRequest := ⟨"b1", 0, "s1", none, none, none⟩

/-- C2 (code bug): a report 6 minutes away from the only existing event —
outside the ±5-minute tolerance, so the claim says it is accepted — is
rejected with nothing persisted, because `buildQuery` drops the `'<='`
bound of the duplicate query (its else-if chain stops at `'>='`), making
every existing event from `spawn_time − 5 min` onwards a «duplicate». -/
theorem claim2_duplicate_guard_failing :
    (createSpawnEvent 0 dupStore dupRequest "u2" "e9").success = false ∧
    (createSpawnEvent 0 dupStore dupRequest "u2" "e9").store = dupStore ∧
    farEvent.spawn_time - dupRequest.spawn_time = 6 * 60000 ∧
    ¬(|farEvent.spawn_time - dupRequest.spawn_time| ≤ 5 * 60000) := by
  refine ⟨by decide, by decide, by decide, by decide⟩

/-! ## C9 — respawn timer fields -/

/-- C9 (amended): in `getRespawnTimer` the `is_active` flag is true iff
the boss record's stored `next_spawn` field exists and lies strictly
after `now` (the freshly computed timer value plays no part in it), and
`time_remaining` is `max 0` of the whole-second difference between the
timer's `next_spawn` and `now`. -/
theorem claim9_respawn_timer (now : ℤ) (boss : Boss) (lastSpawnEvent : Option SpawnEvent) :
    ((getRespawnTimer now boss lastSpawnEvent).is_active = true
      ↔ ∃ ns, boss.next_spawn = some ns ∧ now < ns) ∧
    (getRespawnTimer now boss lastSpawnEvent).time_remaining
      = max 0 (diffSeconds (getRespawnTimer now boss lastSpawnEvent).next_spawn now) := by
  constructor
  · show (isBossActive now boss = true ↔ _)
    unfold isBossActive
    cases boss.next_spawn <;> simp
  · rfl

/-- C9 counterexample: a boss whose stored `next_spawn` is null but whose
`last_spawn` is recent produces a timer with `next_spawn` in the future
(`now < next_spawn`) and yet `is_active = false`, refuting
«`is_active` iff now is strictly before the timer's `next_spawn`». -/
theorem claim9_counterexample :
    (getRespawnTimer 1000 sampleBossWithLast none).is_active = false ∧
    1000 < (getRespawnTimer 1000 sampleBossWithLast none).next_spawn := by
  refine ⟨by decide, by decide⟩

/-! ## C10 — reporter attribution and verification flag -/

/-- C10: every event persisted by a successful `createSpawnEvent` call is
stored with `verified = false` and `reported_by` equal to the
authenticated user id, whatever `verified` / `reported_by` values the
request payload carried. -/
theorem claim10_reported_by_and_verified :
    ∀ (now : ℤ) (s : SpawnStore) (data : CreateSpawnEventRequest) (userId newId : String),
      (createSpawnEvent now s data userId newId).success = true →
      ∃ ev, (createSpawnEvent now s data userId newId).data = some ev ∧
        ev ∈ (createSpawnEvent now s data userId newId).store.events ∧
        ev.verified = false ∧ ev.reported_by = userId := by
  intro now s data userId newId hs
  obtain ⟨boss, _, heq⟩ := createSpawnEvent_success_elim hs
  refine ⟨newSpawnEvent data userId newId, ?_, ?_, rfl, rfl⟩
  · rw [heq]
  · rw [heq]
    simp

/-- Witness for C10: the sample payload asks for `verified: true` and a
foreign reporter, and the stored event still has `verified = false` and
the authenticated reporter. -/
theorem claim10_witness :
    ∃ ev, (createSpawnEvent 0 emptyStore sampleRequest "u2" "e1").data = some ev ∧
      ev ∈ (createSpawnEvent 0 emptyStore sampleRequest "u2" "e1").store.events ∧
      ev.verified = false ∧ ev.reported_by = "u2" :=
  claim10_reported_by_and_verified 0 emptyStore sampleRequest "u2" "e1" (by decide)

/-! ## C7 — notification due-ness -/

/-- Truncated division by 1000 is nonpositive exactly on inputs below
1000: the whole-second diff underlying `shouldSendNotification`. -/
theorem tdiv_thousand_nonpos_iff (a : ℤ) : a.tdiv 1000 ≤ 0 ↔ a < 1000 := by
  constructor
  · intro h
    by_contra hc
    push_neg at hc
    rw [Int.tdiv_eq_ediv (by omega) (by norm_num)] at h
    have h1 : (1 : ℤ) ≤ a / 1000 := (Int.le_ediv_iff_mul_le (by norm_num)).mpr (by omega)
    omega
  · intro h
    rcases le_or_lt 0 a with h0 | h0
    · rw [Int.tdiv_eq_ediv h0 (by norm_num)]
      by_contra hc
      push_neg at hc
      have h1 : (1 : ℤ) ≤ a / 1000 := hc
      have h2 : (1 : ℤ) * 1000 ≤ a :=
        (Int.le_ediv_iff_mul_le (show (0 : ℤ) < 1000 by norm_num)).mp h1
      omega
    · have h1 : 0 ≤ (-a).tdiv 1000 := Int.tdiv_nonneg (by omega) (by norm_num)
      have h2 : (-a).tdiv 1000 = -(a.tdiv 1000) := Int.neg_tdiv a 1000
      omega

/-- C7 (amended): `shouldSendNotification` returns true iff fewer than
1000 ms remain until the notification instant `next_spawn − value·unit`
(the whole-second truncation makes it fire up to 999 ms early; at any
instant at or past the notification time it also fires) and the
lead-time's key is not yet recorded in `sentNotifications`; hence a
recorded lead-time is never reported due again until the tracking list
is reset for a new `next_spawn`. -/
theorem claim7_notification_due (now nextSpawn : ℤ) (timing : NotificationTiming)
    (sentNotifications : List (TimingUnit × ℤ)) :
    shouldSendNotification now nextSpawn timing sentNotifications = true
      ↔ nextSpawn - timing.value * timing.type.ms - now < 1000
        ∧ notificationKey timing ∉ sentNotifications := by
  unfold shouldSendNotification getTimeUntilNotification diffSeconds
  rw [Bool.and_eq_true]
  rw [show nextSpawn - timing.value * timing.type.ms - now < 1000
        ↔ (nextSpawn - timing.value * timing.type.ms - now).tdiv 1000 ≤ 0
      from (tdiv_thousand_nonpos_iff _).symm]
  simp

/-- C7 counterexample: half a second before the notification instant
(now = 539500 ms, notification at 600000 − 60 s = 540000 ms) the code
already reports the notification due, while the claim's condition
`now ≥ next_spawn − value·unit` does not hold yet. -/
theorem claim7_counterexample :
    shouldSendNotification 539500 600000 ⟨TimingUnit.seconds, 60⟩ [] = true ∧
    ¬(539500 ≥ 600000 - 60 * TimingUnit.seconds.ms) := by
  refine ⟨by decide, by decide⟩

/-! ## C8 — point predictions -/

/-- The prediction loop unrolled: the k-th element (0-based) is the start
time plus (k+1) configured intervals. -/
theorem predictFrom_eq (R : ℤ) : ∀ (n : ℕ) (t : ℤ),
    predictFrom R t n = (List.range n).map (fun k : ℕ => addMinutes t (((k : ℤ) + 1) * R)) := by
  intro n
  induction n with
  | zero => intro t; rfl
  | succ n ih =>
    intro t
    show addMinutes t R :: predictFrom R (addMinutes t R) n = _
    rw [ih, List.range_succ_eq_map, List.map_cons, List.map_map]
    refine congrArg₂ _ ?_ ?_
    · simp [addMinutes]
    · refine List.map_congr_left ?_
      intro k _
      simp only [Function.comp, addMinutes]
      push_cast
      ring

/-- The first element of the descending sort is a most recent event. -/
theorem head_sortEventsDesc {events : List SpawnEvent} {e : SpawnEvent}
    (h : (sortEventsDesc events).head? = some e) :
    e ∈ events ∧ ∀ x ∈ events, x.spawn_time ≤ e.spawn_time := by
  have htot : IsTotal SpawnEvent (fun a b => b.spawn_time ≤ a.spawn_time) :=
    ⟨fun a b => le_total b.spawn_time a.spawn_time⟩
  have htrans : IsTrans SpawnEvent (fun a b => b.spawn_time ≤ a.spawn_time) :=
    ⟨fun _ _ _ hab hbc => le_trans hbc hab⟩
  have hsorted := List.sorted_insertionSort (fun a b : SpawnEvent => b.spawn_time ≤ a.spawn_time) events
  have hperm := List.perm_insertionSort (fun a b : SpawnEvent => b.spawn_time ≤ a.spawn_time) events
  cases hl : List.insertionSort (fun a b : SpawnEvent => b.spawn_time ≤ a.spawn_time) events with
  | nil => rw [sortEventsDesc, hl] at h; cases h
  | cons y tail =>
    rw [sortEventsDesc, hl] at h
    cases h
    rw [hl] at hsorted hperm
    constructor
    · exact hperm.mem_iff.mp (List.mem_cons_self e tail)
    · intro x hx
      rcases List.mem_cons.mp (hperm.mem_iff.mpr hx) with heq | hx2
      · exact le_of_eq (congrArg SpawnEvent.spawn_time heq)
      · exact List.rel_of_sorted_cons hsorted x hx2

/-- C8 (amended): `predictSpawnTimes` returns the empty list when the
event list is empty; the default `count` is 5 (not 3); and on a nonempty
event list it returns `count` timestamps, the k-th being a most recent
event's spawn_time plus k times the boss's configured respawn interval. -/
theorem claim8_predictions (boss : Boss) (events : List SpawnEvent) (count : ℕ) :
    (events = [] → predictSpawnTimes boss events count = []) ∧
    (predictSpawnTimes boss events = predictSpawnTimes boss events 5) ∧
    (events ≠ [] → ∃ last, last ∈ events ∧ (∀ x ∈ events, x.spawn_time ≤ last.spawn_time) ∧
      predictSpawnTimes boss events count
        = (List.range count).map
            (fun k : ℕ => addMinutes last.spawn_time (((k : ℤ) + 1) * boss.respawn_time))) := by
  refine ⟨?_, rfl, ?_⟩
  · rintro rfl
    rfl
  · intro hne
    cases hhead : (sortEventsDesc events).head? with
    | none =>
      exfalso
      have hperm := List.perm_insertionSort (fun a b : SpawnEvent => b.spawn_time ≤ a.spawn_time) events
      rw [List.head?_eq_none_iff] at hhead
      rw [sortEventsDesc] at hhead
      rw [hhead] at hperm
      exact hne (hperm.symm.eq_nil)
    | some e =>
      obtain ⟨hmem, hmax⟩ := head_sortEventsDesc hhead
      refine ⟨e, hmem, hmax, ?_⟩
      unfold predictSpawnTimes
      rw [hhead]
      exact predictFrom_eq boss.respawn_time count e.spawn_time

/-- Witness for C8 at concrete inputs. -/
theorem claim8_predictions_witness :
    (predictSpawnTimes sampleBoss [] 3 = []) ∧
    (∃ last, last ∈ [farEvent] ∧ (∀ x ∈ [farEvent], x.spawn_time ≤ last.spawn_time) ∧
      predictSpawnTimes sampleBoss [farEvent] 3
        = (List.range 3).map
            (fun k : ℕ => addMinutes farEvent.spawn_time (((k : ℤ) + 1) * sampleBoss.respawn_time))) := by
  refine ⟨(claim8_predictions sampleBoss [] 3).1 rfl, ?_⟩
  obtain ⟨last, hmem, hmax, heq⟩ := (claim8_predictions sampleBoss [farEvent] 3).2.2 (by decide)
  have : last = farEvent := by simpa using hmem
  subst this
  exact ⟨farEvent, hmem, hmax, heq⟩

/-- C8 counterexample: called without a `count` argument the function
returns five predictions, refuting the claimed default of 3. -/
theorem claim8_default_counterexample :
    (predictSpawnTimes sampleBoss [farEvent]).length = 5 ∧ (5 : ℕ) ≠ 3 := by
  refine ⟨by decide, by decide⟩

/-! ## C4 — contribution increment -/

/-- C4 (amended): `incrementContribution` adds exactly 1 to an existing
row's `contribution_score` and overwrites its `last_event_date` with the
supplied `event_date` whenever one is supplied (with no comparison to
the stored date); with no existing row it creates one with score 1.
Consequently two sequential increments for the same member yield
`contribution_score = 2` and `last_event_date` equal to the second
supplied event date. -/
theorem claim4_increment (now : ℤ) (cs : List Contribution) (g n : String)
    (mid : Option String) (d : Option ℤ) (newId : String)
    (hg : g ≠ "") (hn : n ≠ "") :
    (∀ ex, findContribution cs g n = some ex →
      (incrementContribution now cs g n mid d newId).data =
        some { ex with
          contribution_score := ex.contribution_score + 1,
          last_event_date := match d with | some x => some x | none => ex.last_event_date }) ∧
    (findContribution cs g n = none →
      (incrementContribution now cs g n mid d newId).contributions =
        cs ++ [⟨newId, g, sanitizeString n, mid, 1, some (d.getD now)⟩]) ∧
    (∀ (d1 d2 : ℤ) (id1 id2 : String),
      findContribution cs g n = none → sanitizeString n = n →
      (∀ c ∈ cs, c.id ≠ id1) →
      (incrementContribution now
        (incrementContribution now cs g n mid (some d1) id1).contributions
        g n mid (some d2) id2).contributions
        = cs ++ [⟨id1, g, n, mid, 2, some d2⟩]) := by
  have hgb : (g == "") = false := beq_eq_false_iff_ne.mpr hg
  have hnb : (n == "") = false := beq_eq_false_iff_ne.mpr hn
  refine ⟨?_, ?_, ?_⟩
  · intro ex hex
    unfold incrementContribution
    rw [hgb, hnb, hex]
    rfl
  · intro hnone
    unfold incrementContribution
    rw [hgb, hnb, hnone]
    rfl
  · intro d1 d2 id1 id2 hnone hsan hfresh
    have h1 : (incrementContribution now cs g n mid (some d1) id1).contributions
        = cs ++ [⟨id1, g, n, mid, 1, some d1⟩] := by
      unfold incrementContribution
      rw [hgb, hnb, hnone]
      simp [hsan]
    rw [h1]
    have hrow : findContribution (cs ++ [⟨id1, g, n, mid, 1, some d1⟩]) g n
        = some ⟨id1, g, n, mid, 1, some d1⟩ := by
      unfold findContribution at hnone ⊢
      rw [List.find?_append, hnone]
      simp
    unfold incrementContribution
    rw [hgb, hnb, hrow]
    simp only [List.map_append]
    refine congrArg₂ _ ?_ ?_
    · refine (List.map_congr_left ?_).trans (List.map_id cs)
      intro c hc
      rw [if_neg (by simpa using hfresh c hc)]
      rfl
    · simp

/-- Witness for C4: two sequential increments for ("guildA", "Alice")
starting from an empty table end with score 2 and the second date. -/
theorem claim4_increment_witness :
    (incrementContribution 0
      (incrementContribution 0 [] "guildA" "Alice" none (some 1000) "c1").contributions
      "guildA" "Alice" none (some 3600000) "c2").contributions
      = [] ++ [⟨"c1", "guildA", "Alice", none, 2, some 3600000⟩] :=
  (claim4_increment 0 [] "guildA" "Alice" none (some 3600000) "c2"
    (by decide) (by decide)).2.2 1000 3600000 "c1" "c2" (by decide) (by decide)
    (by intro c hc; cases hc)

/-- C4 counterexample: when the second increment supplies an older
event_date (1000 < 2000), the stored `last_event_date` regresses to
1000 instead of keeping the later of the two dates, refuting «updated
only when the supplied event_date is newer». -/
theorem claim4_counterexample :
    (findContribution
      (incrementContribution 0
        (incrementContribution 0 [] "guildA" "Alice" none (some 2000) "c1").contributions
        "guildA" "Alice" none (some 1000) "c2").contributions
      "guildA" "Alice")
      = some ⟨"c1", "guildA", "Alice", none, 2, some 1000⟩ ∧
    (1000 : ℤ) ≠ max 2000 1000 := by
  refine ⟨by decide, by decide⟩

/-! ## C5 — spawn accuracy -/

/-- The interval loop produces exactly the pairwise differences of
consecutive list entries. -/
theorem consecutiveIntervals_eq_zipWith (l : List SpawnEvent) :
    consecutiveIntervals l
      = List.zipWith (fun a b => diffMinutes b.spawn_time a.spawn_time) l l.tail := by
  induction l with
  | nil => rfl
  | cons a t ih =>
    cases t with
    | nil => rfl
    | cons b rest =>
      show diffMinutes b.spawn_time a.spawn_time :: consecutiveIntervals (b :: rest) = _
      rw [ih]
      rfl

/-- C5 (amended): for at least two events and a positive configured
interval C, the accuracy is `round (max 0 (100 − |mean − C| / C·100))`
where `mean` is the average of the consecutive whole-minute inter-arrival
intervals of the chronologically sorted events; with fewer than two
events the accuracy is 0. (The sample instance T, T+60 min, T+62 min at
C = 60 yields intervals 60 and 2, mean 31, accuracy 52 — not 98.) -/
theorem claim5_accuracy (boss : Boss) (events : List SpawnEvent)
    (_hC : 0 < boss.respawn_time) :
    (2 ≤ events.length →
      calculateSpawnAccuracy boss events =
        round (max 0 (100 -
          |(((List.zipWith (fun a b => diffMinutes b.spawn_time a.spawn_time)
                (sortEventsAsc events) (sortEventsAsc events).tail).sum : ℚ) /
              ((List.zipWith (fun a b => diffMinutes b.spawn_time a.spawn_time)
                (sortEventsAsc events) (sortEventsAsc events).tail).length : ℚ))
            - (boss.respawn_time : ℚ)| / (boss.respawn_time : ℚ) * 100))) ∧
    (events.length < 2 → calculateSpawnAccuracy boss events = 0) := by
  constructor
  · intro hlen
    unfold calculateSpawnAccuracy
    rw [if_neg (by omega), consecutiveIntervals_eq_zipWith]
    rfl
  · intro hlen
    unfold calculateSpawnAccuracy
    rw [if_pos hlen]

/-- Events at T = 0, T + 60 min and T + 62 min. -/
def accEventA : SpawnEvent := ⟨"a1", "b1", 0, "u1", false, "s1", none, []⟩

/-- Second accuracy sample event (T + 60 min). -/
def accEventB : SpawnEvent := ⟨"a2", "b1", 3600000, "u1", false, "s1", none, []⟩

/-- Third accuracy sample event (T + 62 min). -/
def accEventC : SpawnEvent := ⟨"a3", "b1", 3720000, "u1", false, "s1", none, []⟩

/-- Witness for C5 on the three sample events and C = 60. -/
theorem claim5_accuracy_witness :
    calculateSpawnAccuracy sampleBoss [accEventA, accEventB, accEventC] =
      round (max 0 (100 -
        |(((List.zipWith (fun a b => diffMinutes b.spawn_time a.spawn_time)
              (sortEventsAsc [accEventA, accEventB, accEventC])
              (sortEventsAsc [accEventA, accEventB, accEventC]).tail).sum : ℚ) /
            ((List.zipWith (fun a b => diffMinutes b.spawn_time a.spawn_time)
              (sortEventsAsc [accEventA, accEventB, accEventC])
              (sortEventsAsc [accEventA, accEventB, accEventC]).tail).length : ℚ))
          - (sampleBoss.respawn_time : ℚ)| / (sampleBoss.respawn_time : ℚ) * 100)) ∧
    calculateSpawnAccuracy sampleBoss [accEventA] = 0 :=
  ⟨(claim5_accuracy sampleBoss [accEventA, accEventB, accEventC] (by decide)).1 (by decide),
   (claim5_accuracy sampleBoss [accEventA] (by decide)).2 (by decide)⟩

/-- C5 counterexample: the events T, T+60 min, T+62 min with C = 60 give
intervals 60 and 2 (not 60 and 62), so the accuracy is 52, refuting the
claimed 98. -/
theorem claim5_counterexample :
    calculateSpawnAccuracy sampleBoss [accEventA, accEventB, accEventC] = 52 ∧
    (52 : ℤ) ≠ 98 := by
  constructor
  · have hI : consecutiveIntervals (sortEventsAsc [accEventA, accEventB, accEventC])
        = [60, 2] := by decide
    simp only [calculateSpawnAccuracy, hI]
    norm_num [averageOf, sampleBoss, round_eq]
  · decide

/-! ## C3 — confidence windows -/

/-- Window sample events at 0, 10 min and 30 min: intervals 10 and 20,
mean 15, population variance 25, standard deviation 5. -/
def winEventA : SpawnEvent := ⟨"w1", "b1", 0, "u1", false, "s1", none, []⟩

/-- Second window sample event (10 min). -/
def winEventB : SpawnEvent := ⟨"w2", "b1", 600000, "u1", false, "s1", none, []⟩

/-- Third window sample event (30 min). -/
def winEventC : SpawnEvent := ⟨"w3", "b1", 1800000, "u1", false, "s1", none, []⟩

/-- C3 (code bug): on three events with mean interval 15 min and standard
deviation 5 min, every returned window has `start = end = predicted`
(2 700 000, 3 600 000, 4 500 000 ms — the predicted points last + k·mean),
instead of the claimed `[predicted − stddev, predicted + stddev]`
(the first window's claimed start 2 700 000 − 5·60000 = 2 400 000 differs
from the actual 2 700 000): `windowStart`/`windowEnd` alias the one
mutable moment object, whose mutations cancel before `toISOString` runs.
The confidence 67 = round(max(0, 100 − 5/15·100)) matches the claim.
The conjunct `5² = variance` (with 5 ≥ 0) certifies the exact standard
deviation passed for `Math.sqrt(variance)`. -/
theorem claim3_spawn_windows_bug :
    getSpawnWindows sampleBoss [winEventA, winEventB, winEventC] 5
      = [⟨2700000, 2700000, 67⟩, ⟨3600000, 3600000, 67⟩, ⟨4500000, 4500000, 67⟩] ∧
    (5 : ℚ) ^ 2 = varianceOf (consecutiveIntervals (sortEventsAsc [winEventA, winEventB, winEventC])) ∧
    (0 : ℚ) ≤ 5 ∧
    (2700000 : ℚ) - 5 * 60000 ≠ 2700000 := by
  refine ⟨?_, ?_, by norm_num, by norm_num⟩
  · have hI : consecutiveIntervals (sortEventsAsc [winEventA, winEventB, winEventC])
        = [10, 20] := by decide
    have hL : (sortEventsAsc [winEventA, winEventB, winEventC]).getLast? = some winEventC := by
      decide
    simp only [getSpawnWindows, windowStep, hI, hL]
    norm_num [averageOf, winEventC, round_eq]
  · have hI : consecutiveIntervals (sortEventsAsc [winEventA, winEventB, winEventC])
        = [10, 20] := by decide
    rw [hI]
    norm_num [varianceOf, averageOf]

/-! ## C6 — guild contribution recalculation

The tally analysis flattens the double loop over events and participants
into a fold over (participant, spawn_time) pairs and characterizes the
per-name observation of the tally. -/

/-- All (participant, spawn_time) occurrence pairs of an event list, in
scan order. -/
def flatPairs (events : List SpawnEvent) : List (String × ℤ) :=
  events.flatMap (fun e => e.participants.map (fun p => (p, e.spawn_time)))

/-- The spawn times of the occurrences of `name`, in scan order. -/
def timesOf (name : String) (pairs : List (String × ℤ)) : List ℤ :=
  (pairs.filter (fun pr => pr.1 == name)).map Prod.snd

/-- How one occurrence at time `t` transforms the tally entry of its
name. -/
def obsStep : Option TallyEntry → ℤ → Option TallyEntry
  | some e, t => some ⟨e.count + 1, pushDate e.lastEventDate t⟩
  | none, t => some ⟨1, pushDate none t⟩

/-- Total number of occurrences of `name` in the participant lists. -/
def totalOccurrences (name : String) (events : List SpawnEvent) : ℕ :=
  (events.map (fun e => e.participants.count name)).sum

/-- Folding `bumpTally` over a participant list is folding over its
occurrence pairs. -/
theorem foldl_bumpTally_eq_pairs (t : ℤ) (ps : List String) :
    ∀ acc, ps.foldl (bumpTally t) acc
      = (ps.map (fun p => (p, t))).foldl (fun a pr => bumpTally pr.2 a pr.1) acc := by
  induction ps with
  | nil => intro acc; rfl
  | cons p ps ih => intro acc; simp only [List.foldl_cons, List.map_cons, ih]

/-- `tallyEvents` is the pair fold over the flattened occurrence list. -/
theorem tallyEvents_eq_pairFold (events : List SpawnEvent) :
    tallyEvents events
      = (flatPairs events).foldl (fun a pr => bumpTally pr.2 a pr.1) [] := by
  suffices h : ∀ acc, events.foldl (fun acc ev =>
      if ev.participants.isEmpty then acc
      else ev.participants.foldl (bumpTally ev.spawn_time) acc) acc
      = (flatPairs events).foldl (fun a pr => bumpTally pr.2 a pr.1) acc from h []
  induction events with
  | nil => intro acc; rfl
  | cons e rest ih =>
    intro acc
    simp only [List.foldl_cons, flatPairs, List.flatMap_cons, List.foldl_append]
    rw [← flatPairs]
    by_cases he : e.participants.isEmpty
    · rw [if_pos he]
      have : e.participants = [] := List.isEmpty_iff.mp he
      rw [this]
      exact ih acc
    · rw [if_neg he, foldl_bumpTally_eq_pairs]
      exact ih _

/-- Looking up a key different from the head key skips the head. -/
theorem lookup_cons_ne {β : Type} (a k : String) (v : β) (l : List (String × β))
    (h : a ≠ k) : List.lookup a ((k, v) :: l) = List.lookup a l := by
  simp [List.lookup_cons, beq_eq_false_iff_ne.mpr h]

/-- Looking up the head key returns the head value. -/
theorem lookup_cons_self {β : Type} (a : String) (v : β) (l : List (String × β)) :
    List.lookup a ((a, v) :: l) = some v := by
  simp [List.lookup_cons]

/-- Unfolding equation of `bumpTally` on a cons cell. -/
theorem bumpTally_cons (t : ℤ) (q : String) (e : TallyEntry)
    (rest : List (String × TallyEntry)) (p : String) :
    bumpTally t ((q, e) :: rest) p
      = if q == p then (q, ⟨e.count + 1, pushDate e.lastEventDate t⟩) :: rest
        else (q, e) :: bumpTally t rest p := rfl

/-- Observing one `bumpTally` step through `List.lookup`. -/
theorem lookup_bumpTally (t : ℤ) (p name : String) :
    ∀ acc : List (String × TallyEntry),
      (bumpTally t acc p).lookup name
        = if name = p then obsStep (acc.lookup p) t else acc.lookup name := by
  intro acc
  induction acc with
  | nil =>
    rw [show bumpTally t ([] : List (String × TallyEntry)) p
        = [(p, (⟨1, pushDate none t⟩ : TallyEntry))] from rfl]
    by_cases h : name = p
    · subst h
      rw [lookup_cons_self, if_pos rfl]
      rfl
    · rw [lookup_cons_ne _ _ _ _ h, if_neg h]
  | cons qe rest ih =>
    obtain ⟨q, e⟩ := qe
    rw [bumpTally_cons]
    by_cases hqp : q = p
    · subst hqp
      rw [if_pos (beq_self_eq_true q)]
      by_cases hnq : name = q
      · subst hnq
        rw [lookup_cons_self, lookup_cons_self, if_pos rfl]
        rfl
      · rw [lookup_cons_ne _ _ _ _ hnq, lookup_cons_ne _ _ _ _ hnq, if_neg hnq]
    · rw [if_neg (by simp [beq_eq_false_iff_ne.mpr hqp])]
      by_cases hnq : name = q
      · subst hnq
        rw [lookup_cons_self, if_neg hqp, lookup_cons_self]
      · rw [lookup_cons_ne _ _ _ _ hnq, ih, lookup_cons_ne _ _ _ _ hnq]
        by_cases hnp : name = p
        · rw [if_pos hnp, if_pos hnp, lookup_cons_ne _ _ _ _ (fun h => hqp h.symm)]
        · rw [if_neg hnp, if_neg hnp]

/-- Observing the whole pair fold: the tally entry of `name` is the
`obsStep` fold of the occurrence times of `name`. -/
theorem lookup_pairFold (name : String) :
    ∀ (pairs : List (String × ℤ)) (acc : List (String × TallyEntry)),
      (pairs.foldl (fun a pr => bumpTally pr.2 a pr.1) acc).lookup name
        = (timesOf name pairs).foldl obsStep (acc.lookup name) := by
  intro pairs
  induction pairs with
  | nil => intro acc; rfl
  | cons pt rest ih =>
    obtain ⟨p, t⟩ := pt
    intro acc
    rw [List.foldl_cons, ih, lookup_bumpTally]
    by_cases h : p = name
    · subst h
      rw [if_pos rfl,
        show timesOf p ((p, t) :: rest) = t :: timesOf p rest from by
          simp [timesOf, List.filter_cons, beq_self_eq_true]]
      rfl
    · rw [if_neg (fun hh => h hh.symm),
        show timesOf name ((p, t) :: rest) = timesOf name rest from by
          simp [timesOf, List.filter_cons, beq_eq_false_iff_ne.mpr h]]

/-- Folding `obsStep` from an existing entry adds the number of times and
pushes every time into the date. -/
theorem foldl_obsStep_some : ∀ (ts : List ℤ) (e : TallyEntry),
    ts.foldl obsStep (some e)
      = some ⟨e.count + ts.length, ts.foldl pushDate e.lastEventDate⟩ := by
  intro ts
  induction ts with
  | nil => intro e; simp
  | cons t ts ih =>
    intro e
    rw [List.foldl_cons,
      show obsStep (some e) t = some ⟨e.count + 1, pushDate e.lastEventDate t⟩ from rfl, ih]
    have hc : e.count + 1 + ts.length = e.count + (ts.length + 1) := by omega
    rw [List.length_cons, List.foldl_cons, hc]

/-- Folding `pushDate` from a starting date yields a maximum of the
starting date and the list. -/
theorem foldl_pushDate_some : ∀ (ts : List ℤ) (d0 : ℤ), ∃ dmax,
    ts.foldl pushDate (some d0) = some dmax ∧ (dmax = d0 ∨ dmax ∈ ts) ∧
      d0 ≤ dmax ∧ ∀ x ∈ ts, x ≤ dmax := by
  intro ts
  induction ts with
  | nil => intro d0; exact ⟨d0, rfl, Or.inl rfl, le_refl d0, by simp⟩
  | cons t ts ih =>
    intro d0
    rw [List.foldl_cons, show pushDate (some d0) t = some (if d0 < t then t else d0) from rfl]
    obtain ⟨dmax, heq, hmem, hle, hbound⟩ := ih (if d0 < t then t else d0)
    refine ⟨dmax, heq, ?_, ?_, ?_⟩
    · rcases hmem with h | h
      · by_cases hd : d0 < t
        · rw [if_pos hd] at h; exact Or.inr (h ▸ List.mem_cons_self t ts)
        · rw [if_neg hd] at h; exact Or.inl h
      · exact Or.inr (List.mem_cons_of_mem t h)
    · refine le_trans ?_ hle
      by_cases hd : d0 < t
      · rw [if_pos hd]; exact le_of_lt hd
      · rw [if_neg hd]
    · intro x hx
      rcases List.mem_cons.mp hx with rfl | hx2
      · refine le_trans ?_ hle
        by_cases hd : d0 < x
        · rw [if_pos hd]
        · rw [if_neg hd]; omega
      · exact hbound x hx2

/-- Folding `obsStep` over a nonempty time list from nothing counts the
times and records their maximum. -/
theorem foldl_obsStep_none (ts : List ℤ) (h : ts ≠ []) : ∃ dmax,
    ts.foldl obsStep none = some ⟨ts.length, some dmax⟩ ∧
      dmax ∈ ts ∧ ∀ x ∈ ts, x ≤ dmax := by
  cases ts with
  | nil => exact absurd rfl h
  | cons t ts =>
    rw [List.foldl_cons, show obsStep none t = some ⟨1, some t⟩ from rfl, foldl_obsStep_some]
    obtain ⟨dmax, heq, hmem, hle, hbound⟩ := foldl_pushDate_some ts t
    refine ⟨dmax, ?_, ?_, ?_⟩
    · rw [show (⟨1, some t⟩ : TallyEntry).count = 1 from rfl,
        show (⟨1, some t⟩ : TallyEntry).lastEventDate = some t from rfl, heq,
        List.length_cons]
      have : 1 + ts.length = ts.length + 1 := by omega
      rw [this]
    · rcases hmem with h2 | h2
      · exact h2 ▸ List.mem_cons_self t ts
      · exact List.mem_cons_of_mem t h2
    · intro x hx
      rcases List.mem_cons.mp hx with rfl | hx2
      · exact hle
      · exact hbound x hx2

/-- The number of occurrence times of `name` equals the total occurrence
count over the participant lists. -/
theorem length_timesOf_flatPairs (name : String) : ∀ events : List SpawnEvent,
    (timesOf name (flatPairs events)).length = totalOccurrences name events := by
  intro events
  induction events with
  | nil => rfl
  | cons e rest ih =>
    rw [show flatPairs (e :: rest)
        = e.participants.map (fun p => (p, e.spawn_time)) ++ flatPairs rest from by
        simp [flatPairs]]
    rw [show ∀ l1 l2, timesOf name (l1 ++ l2) = timesOf name l1 ++ timesOf name l2 from by
        intro l1 l2; simp [timesOf, List.filter_append]]
    rw [List.length_append, ih,
      show totalOccurrences name (e :: rest)
        = e.participants.count name + totalOccurrences name rest from by
        simp [totalOccurrences]]
    congr 1
    rw [timesOf, List.filter_map, List.length_map, List.length_map]
    rw [← List.countP_eq_length_filter]
    rfl

/-- Membership description of the occurrence times of a name. -/
theorem mem_timesOf_flatPairs (name : String) (events : List SpawnEvent) (x : ℤ) :
    x ∈ timesOf name (flatPairs events)
      ↔ ∃ e ∈ events, name ∈ e.participants ∧ e.spawn_time = x := by
  simp only [timesOf, List.mem_map, List.mem_filter, flatPairs, List.mem_flatMap,
    beq_iff_eq]
  constructor
  · rintro ⟨⟨p, t⟩, ⟨⟨e, he, p2, hp2, hpair⟩, hp⟩, hx⟩
    cases hpair
    exact ⟨e, he, hp ▸ hp2, hx⟩
  · rintro ⟨e, he, hname, hx⟩
    exact ⟨(name, e.spawn_time), ⟨⟨e, he, name, hname, rfl⟩, rfl⟩, hx⟩

/-- Summary of the tally of a name with at least one occurrence: its
count is the total number of occurrences and its date is a maximum
occurrence time. -/
theorem lookup_tallyEvents (events : List SpawnEvent) (name : String)
    (h : 0 < totalOccurrences name events) : ∃ dmax,
    (tallyEvents events).lookup name
      = some ⟨totalOccurrences name events, some dmax⟩ ∧
    (∃ e ∈ events, name ∈ e.participants ∧ e.spawn_time = dmax) ∧
    (∀ e ∈ events, name ∈ e.participants → e.spawn_time ≤ dmax) := by
  rw [tallyEvents_eq_pairFold, lookup_pairFold]
  have hne : timesOf name (flatPairs events) ≠ [] := by
    intro hnil
    have hlen := length_timesOf_flatPairs name events
    rw [hnil] at hlen
    simp at hlen
    omega
  obtain ⟨dmax, heq, hmem, hbound⟩ := foldl_obsStep_none _ hne
  refine ⟨dmax, ?_, ?_, ?_⟩
  · rw [show List.lookup name ([] : List (String × TallyEntry)) = none from rfl, heq,
      length_timesOf_flatPairs]
  · exact (mem_timesOf_flatPairs name events dmax).mp hmem
  · intro e he hp
    exact hbound e.spawn_time ((mem_timesOf_flatPairs name events e.spawn_time).mpr ⟨e, he, hp, rfl⟩)

/-- A successful lookup pins a member of the association list. -/
theorem mem_of_lookup_eq_some {β : Type} {name : String} {v : β} :
    ∀ {l : List (String × β)}, l.lookup name = some v → (name, v) ∈ l := by
  intro l
  induction l with
  | nil => intro h; cases h
  | cons kv rest ih =>
    obtain ⟨k, w⟩ := kv
    intro h
    by_cases hk : name = k
    · subst hk
      rw [lookup_cons_self] at h
      cases h
      exact List.mem_cons_self _ _
    · rw [lookup_cons_ne _ _ _ _ hk] at h
      exact List.mem_cons_of_mem _ (ih h)

/-- Keys present after a `bumpTally` step were present before, or are the
bumped key. -/
theorem keys_bumpTally_subset (t : ℤ) (p x : String) :
    ∀ acc : List (String × TallyEntry),
      x ∈ (bumpTally t acc p).map Prod.fst → x = p ∨ x ∈ acc.map Prod.fst := by
  intro acc
  induction acc with
  | nil =>
    intro h
    simp [bumpTally] at h
    exact Or.inl h
  | cons qe rest ih =>
    obtain ⟨q, e⟩ := qe
    rw [bumpTally_cons]
    by_cases hqp : q = p
    · subst hqp
      rw [if_pos (beq_self_eq_true q)]
      intro h
      rw [List.map_cons] at h
      rcases List.mem_cons.mp h with h2 | h2
      · exact Or.inl h2
      · exact Or.inr (by rw [List.map_cons]; exact List.mem_cons_of_mem _ h2)
    · rw [if_neg (by simp [beq_eq_false_iff_ne.mpr hqp])]
      intro h
      rw [List.map_cons] at h
      rcases List.mem_cons.mp h with h2 | h2
      · exact Or.inr (by rw [List.map_cons]; exact h2 ▸ List.mem_cons_self _ _)
      · rcases ih h2 with h3 | h3
        · exact Or.inl h3
        · exact Or.inr (by rw [List.map_cons]; exact List.mem_cons_of_mem _ h3)

/-- `bumpTally` preserves distinctness of the tally keys. -/
theorem nodup_keys_bumpTally (t : ℤ) (p : String) :
    ∀ acc : List (String × TallyEntry),
      (acc.map Prod.fst).Nodup → ((bumpTally t acc p).map Prod.fst).Nodup := by
  intro acc
  induction acc with
  | nil => intro _; simp [bumpTally]
  | cons qe rest ih =>
    obtain ⟨q, e⟩ := qe
    rw [bumpTally_cons]
    intro hnd
    rw [List.map_cons, List.nodup_cons] at hnd
    by_cases hqp : q = p
    · rw [if_pos (beq_iff_eq.mpr hqp)]
      rw [List.map_cons, List.nodup_cons]
      exact hnd
    · rw [if_neg (by simp [beq_eq_false_iff_ne.mpr hqp])]
      rw [List.map_cons, List.nodup_cons]
      refine ⟨?_, ih hnd.2⟩
      intro hq
      rcases keys_bumpTally_subset t p q _ hq with h2 | h2
      · exact hqp h2
      · exact hnd.1 h2

/-- The tally built by the pair fold has pairwise distinct keys. -/
theorem nodup_keys_pairFold :
    ∀ (pairs : List (String × ℤ)) (acc : List (String × TallyEntry)),
      (acc.map Prod.fst).Nodup →
      ((pairs.foldl (fun a pr => bumpTally pr.2 a pr.1) acc).map Prod.fst).Nodup := by
  intro pairs
  induction pairs with
  | nil => intro acc h; exact h
  | cons pt rest ih =>
    obtain ⟨p, t⟩ := pt
    intro acc h
    exact ih _ (nodup_keys_bumpTally t p acc h)

/-- The tally of any event list has pairwise distinct keys. -/
theorem nodup_keys_tallyEvents (events : List SpawnEvent) :
    ((tallyEvents events).map Prod.fst).Nodup := by
  rw [tallyEvents_eq_pairFold]
  exact nodup_keys_pairFold _ [] (by simp)

/-- Prop-valued unfolding of `findContribution` on a cons cell. -/
theorem findContribution_cons (c : Contribution) (cs : List Contribution) (g n : String) :
    findContribution (c :: cs) g n
      = if c.guild_id = g ∧ c.member_name = n then some c else findContribution cs g n := by
  rw [findContribution, List.find?_cons]
  by_cases h1 : c.guild_id = g
  · by_cases h2 : c.member_name = n
    · have hb : (c.guild_id == g && c.member_name == n) = true := by simp [h1, h2]
      rw [hb, if_pos ⟨h1, h2⟩]
    · have hb : (c.guild_id == g && c.member_name == n) = false := by simp [h2]
      rw [hb, if_neg (fun hh => h2 hh.2)]
      rfl
  · have hb : (c.guild_id == g && c.member_name == n) = false := by simp [h1]
    rw [hb, if_neg (fun hh => h1 hh.1)]
    rfl

/-- Prop-valued unfolding of `updateFirstContribution` on a cons cell. -/
theorem updateFirstContribution_cons (g n : String) (sc : ℤ) (led : Option ℤ)
    (c : Contribution) (cs : List Contribution) :
    updateFirstContribution g n sc led (c :: cs)
      = if c.guild_id = g ∧ c.member_name = n
        then { c with contribution_score := sc, last_event_date := led } :: cs
        else c :: updateFirstContribution g n sc led cs := by
  rw [show updateFirstContribution g n sc led (c :: cs)
      = if c.guild_id == g && c.member_name == n
        then { c with contribution_score := sc, last_event_date := led } :: cs
        else c :: updateFirstContribution g n sc led cs from rfl]
  by_cases h1 : c.guild_id = g
  · by_cases h2 : c.member_name = n
    · have hb : (c.guild_id == g && c.member_name == n) = true := by simp [h1, h2]
      rw [hb, if_pos rfl, if_pos ⟨h1, h2⟩]
    · have hb : (c.guild_id == g && c.member_name == n) = false := by simp [h2]
      rw [hb, if_neg (by simp), if_neg (fun hh => h2 hh.2)]
  · have hb : (c.guild_id == g && c.member_name == n) = false := by simp [h1]
    rw [hb, if_neg (by simp), if_neg (fun hh => h1 hh.1)]

/-- Updating the first (guild, name) row makes its score and date the
written values. -/
theorem findContribution_updateFirst_self (g n : String) (sc : ℤ) (led : Option ℤ) :
    ∀ (cs : List Contribution) (c : Contribution),
      findContribution cs g n = some c →
      findContribution (updateFirstContribution g n sc led cs) g n
        = some { c with contribution_score := sc, last_event_date := led } := by
  intro cs
  induction cs with
  | nil => intro c h; cases h
  | cons c0 rest ih =>
    intro c h
    rw [findContribution_cons] at h
    rw [updateFirstContribution_cons]
    by_cases hc : c0.guild_id = g ∧ c0.member_name = n
    · rw [if_pos hc] at h
      cases h
      rw [if_pos hc, findContribution_cons, if_pos hc]
    · rw [if_neg hc] at h
      rw [if_neg hc, findContribution_cons, if_neg hc]
      exact ih c h

/-- Updating the first (g, n) row leaves lookups of other names alone. -/
theorem findContribution_updateFirst_other (g n n2 : String) (sc : ℤ) (led : Option ℤ)
    (hne : n2 ≠ n) : ∀ cs : List Contribution,
      findContribution (updateFirstContribution g n sc led cs) g n2
        = findContribution cs g n2 := by
  intro cs
  induction cs with
  | nil => rfl
  | cons c0 rest ih =>
    rw [updateFirstContribution_cons]
    by_cases hc : c0.guild_id = g ∧ c0.member_name = n
    · have hno : ¬(c0.guild_id = g ∧ c0.member_name = n2) :=
        fun h => hne (h.2.symm.trans hc.2)
      rw [if_pos hc, findContribution_cons, findContribution_cons, if_neg hno, if_neg hno]
    · rw [if_neg hc, findContribution_cons, findContribution_cons, ih]

/-- Appending a (g, n) row makes it findable when none existed. -/
theorem findContribution_append_self (g n : String) (row : Contribution)
    (hg : row.guild_id = g) (hn : row.member_name = n) :
    ∀ cs, findContribution cs g n = none →
      findContribution (cs ++ [row]) g n = some row := by
  intro cs h
  rw [findContribution, List.find?_append]
  rw [findContribution] at h
  rw [h]
  simp [List.find?_cons, hg, hn]

/-- Appending a row of another name does not affect lookups. -/
theorem findContribution_append_other (g n2 : String) (row : Contribution)
    (h : ¬(row.guild_id = g ∧ row.member_name = n2)) :
    ∀ cs, findContribution (cs ++ [row]) g n2 = findContribution cs g n2 := by
  intro cs
  rw [findContribution, List.find?_append, findContribution]
  have hrow : (row.guild_id == g && row.member_name == n2) = false := by
    by_cases h1 : row.guild_id = g
    · by_cases h2 : row.member_name = n2
      · exact absurd ⟨h1, h2⟩ h
      · simp [h2]
    · simp [h1]
  rw [show List.find? (fun c => c.guild_id == g && c.member_name == n2) [row] = none from by
    simp [List.find?_cons, hrow]]
  cases List.find? (fun c => c.guild_id == g && c.member_name == n2) cs <;> rfl

/-- Unfolding equation of the write-back fold. -/
theorem writeTally_cons (g : String) (cs : List Contribution) (p : String)
    (e : TallyEntry) (rest : List (String × TallyEntry)) :
    writeTally g cs ((p, e) :: rest)
      = writeTally g
          (match findContribution cs g p with
            | some _ => updateFirstContribution g p (e.count : ℤ) e.lastEventDate cs
            | none => cs ++ [⟨"", g, p, none, (e.count : ℤ), e.lastEventDate⟩]) rest := rfl

/-- Writing entries of other names does not affect a name's lookup. -/
theorem findContribution_writeTally_notin (g : String) :
    ∀ (entries : List (String × TallyEntry)) (cs : List Contribution) (n : String),
      n ∉ entries.map Prod.fst →
      findContribution (writeTally g cs entries) g n = findContribution cs g n := by
  intro entries
  induction entries with
  | nil => intro cs n _; rfl
  | cons pe rest ih =>
    obtain ⟨p, e⟩ := pe
    intro cs n hn
    rw [List.map_cons] at hn
    have hnp : n ≠ p := fun h => hn (h ▸ List.mem_cons_self _ _)
    have hnrest : n ∉ rest.map Prod.fst := fun h => hn (List.mem_cons_of_mem _ h)
    rw [writeTally_cons]
    cases hf : findContribution cs g p with
    | some c =>
      rw [ih _ _ hnrest]
      show findContribution (updateFirstContribution g p (e.count : ℤ) e.lastEventDate cs) g n
          = findContribution cs g n
      exact findContribution_updateFirst_other g p n _ _ hnp cs
    | none =>
      rw [ih _ _ hnrest]
      show findContribution (cs ++ [⟨"", g, p, none, (e.count : ℤ), e.lastEventDate⟩]) g n
          = findContribution cs g n
      exact findContribution_append_other g n _ (fun hh => hnp hh.2.symm) cs

/-- After the write-back, every tallied entry's row carries exactly the
tallied score and date. -/
theorem findContribution_writeTally_mem (g : String) :
    ∀ (entries : List (String × TallyEntry)) (cs : List Contribution),
      (entries.map Prod.fst).Nodup →
      ∀ p e, (p, e) ∈ entries →
        ∃ c, findContribution (writeTally g cs entries) g p = some c ∧
          c.contribution_score = (e.count : ℤ) ∧ c.last_event_date = e.lastEventDate := by
  intro entries
  induction entries with
  | nil => intro cs _ p e h; cases h
  | cons qe rest ih =>
    obtain ⟨q, e0⟩ := qe
    intro cs hnd p e hmem
    rw [List.map_cons, List.nodup_cons] at hnd
    rw [writeTally_cons]
    rcases List.mem_cons.mp hmem with heq | hmem2
    · obtain ⟨rfl, rfl⟩ : p = q ∧ e = e0 := ⟨congrArg Prod.fst heq, congrArg Prod.snd heq⟩
      cases hf : findContribution cs g p with
      | some c =>
        refine ⟨{ c with contribution_score := (e.count : ℤ),
                         last_event_date := e.lastEventDate }, ?_, rfl, rfl⟩
        have h2 := findContribution_updateFirst_self g p (e.count : ℤ) e.lastEventDate cs c hf
        rw [findContribution_writeTally_notin g rest _ p hnd.1]
        exact h2
      | none =>
        refine ⟨⟨"", g, p, none, (e.count : ℤ), e.lastEventDate⟩, ?_, rfl, rfl⟩
        have h2 := findContribution_append_self g p
          ⟨"", g, p, none, (e.count : ℤ), e.lastEventDate⟩ rfl rfl cs hf
        rw [findContribution_writeTally_notin g rest _ p hnd.1]
        exact h2
    · exact ih _ hnd.2 p e hmem2

/-- Updating a row with its own values is the identity. -/
theorem updateFirst_id (g n : String) :
    ∀ (cs : List Contribution) (c : Contribution),
      findContribution cs g n = some c →
      updateFirstContribution g n c.contribution_score c.last_event_date cs = cs := by
  intro cs
  induction cs with
  | nil => intro c h; cases h
  | cons c0 rest ih =>
    intro c h
    rw [findContribution_cons] at h
    rw [updateFirstContribution_cons]
    by_cases hc : c0.guild_id = g ∧ c0.member_name = n
    · rw [if_pos hc] at h
      cases h
      rw [if_pos hc]
    · rw [if_neg hc] at h
      rw [if_neg hc, ih c h]

/-- The write-back is the identity when every entry's row already carries
the tallied values. -/
theorem writeTally_id (g : String) :
    ∀ (entries : List (String × TallyEntry)) (cs : List Contribution),
      (∀ p e, (p, e) ∈ entries → ∃ c, findContribution cs g p = some c ∧
        c.contribution_score = (e.count : ℤ) ∧ c.last_event_date = e.lastEventDate) →
      writeTally g cs entries = cs := by
  intro entries
  induction entries with
  | nil => intro cs _; rfl
  | cons pe rest ih =>
    obtain ⟨p, e⟩ := pe
    intro cs hyp
    obtain ⟨c, hf, hsc, hld⟩ := hyp p e (List.mem_cons_self _ _)
    have hstep : (match findContribution cs g p with
        | some _ => updateFirstContribution g p (e.count : ℤ) e.lastEventDate cs
        | none => cs ++ [⟨"", g, p, none, (e.count : ℤ), e.lastEventDate⟩])
        = updateFirstContribution g p (e.count : ℤ) e.lastEventDate cs := by rw [hf]
    rw [writeTally_cons, hstep, ← hsc, ← hld, updateFirst_id g p cs c hf]
    exact ih cs (fun p2 e2 hm => hyp p2 e2 (List.mem_cons_of_mem _ hm))

/-- Skipping the events with an empty participant list does not change
any occurrence count. -/
theorem totalOccurrences_filter (name : String) : ∀ events : List SpawnEvent,
    totalOccurrences name (events.filter (fun e => !e.participants.isEmpty))
      = totalOccurrences name events := by
  intro events
  induction events with
  | nil => rfl
  | cons e rest ih =>
    rw [List.filter_cons]
    by_cases he : e.participants.isEmpty
    · have hpe : e.participants = [] := List.isEmpty_iff.mp he
      rw [if_neg (by simp [he]), ih,
        show totalOccurrences name (e :: rest)
          = e.participants.count name + totalOccurrences name rest from by
          simp [totalOccurrences], hpe]
      simp
    · rw [if_pos (by simp [he]),
        show totalOccurrences name (e :: List.filter (fun e => !e.participants.isEmpty) rest)
          = e.participants.count name
            + totalOccurrences name (List.filter (fun e => !e.participants.isEmpty) rest) from by
          simp [totalOccurrences],
        ih,
        show totalOccurrences name (e :: rest)
          = e.participants.count name + totalOccurrences name rest from by
          simp [totalOccurrences]]

/-- C6 (amended): after a successful `recalculateGuildContributions`,
every tallied member's row in the given guild holds a score equal to the
total number of occurrences of the member's name across the scanned
events' participant lists (an event listing the name twice counts twice;
the previous score is overwritten, not added to), and a last_event_date
equal to the latest spawn_time among the events naming the member;
running the recompute again over the same events changes nothing. -/
theorem claim6_recalculate (guilds : List String) (guildId : String)
    (events : List SpawnEvent) (cs : List Contribution)
    (hg : guildId ≠ "") (hmem : guildId ∈ guilds) :
    (recalculateGuildContributions guilds guildId events cs).2 = true ∧
    (∀ name, 0 < totalOccurrences name events →
      ∃ c, findContribution (recalculateGuildContributions guilds guildId events cs).1
            guildId name = some c ∧
        c.contribution_score = (totalOccurrences name events : ℤ) ∧
        ∃ dmax, c.last_event_date = some dmax ∧
          (∃ e ∈ events, name ∈ e.participants ∧ e.spawn_time = dmax) ∧
          (∀ e ∈ events, name ∈ e.participants → e.spawn_time ≤ dmax)) ∧
    recalculateGuildContributions guilds guildId events
        (recalculateGuildContributions guilds guildId events cs).1
      = recalculateGuildContributions guilds guildId events cs := by
  have hr : ∀ cs2 : List Contribution,
      recalculateGuildContributions guilds guildId events cs2
        = (writeTally guildId cs2
            (tallyEvents (events.filter (fun e => !e.participants.isEmpty))), true) := by
    intro cs2
    unfold recalculateGuildContributions
    rw [if_neg (by simp [beq_eq_false_iff_ne.mpr hg]), if_neg (by simp [hmem])]
  refine ⟨by rw [hr], ?_, ?_⟩
  · intro name hocc
    have hocc2 : 0 < totalOccurrences name
        (events.filter (fun e => !e.participants.isEmpty)) := by
      rw [totalOccurrences_filter]
      exact hocc
    obtain ⟨dmax, hlook, hex, hbound⟩ :=
      lookup_tallyEvents (events.filter (fun e => !e.participants.isEmpty)) name hocc2
    obtain ⟨c, hfindc, hsc, hld⟩ :=
      findContribution_writeTally_mem guildId
        (tallyEvents (events.filter (fun e => !e.participants.isEmpty))) cs
        (nodup_keys_tallyEvents _) name _ (mem_of_lookup_eq_some hlook)
    refine ⟨c, ?_, ?_, dmax, ?_, ?_, ?_⟩
    · rw [hr]
      exact hfindc
    · have hsc2 : c.contribution_score
          = ((totalOccurrences name (events.filter (fun e => !e.participants.isEmpty)) : ℕ) : ℤ) :=
        hsc
      rw [totalOccurrences_filter] at hsc2
      exact hsc2
    · exact hld
    · obtain ⟨e, he, hpe, het⟩ := hex
      exact ⟨e, (List.mem_filter.mp he).1, hpe, het⟩
    · intro e he hpe
      refine hbound e (List.mem_filter.mpr ⟨he, ?_⟩) hpe
      have hne : e.participants ≠ [] := List.ne_nil_of_mem hpe
      simp [List.isEmpty_iff, hne]
  · rw [hr cs, hr]
    simp only [Prod.mk.injEq, and_true]
    apply writeTally_id
    intro p e hm
    exact findContribution_writeTally_mem guildId _ cs (nodup_keys_tallyEvents _) p e hm

/-- A contribution row for "Bob" manually set to score 5. -/
def bobRow : Contribution := ⟨"c9", "guildA", "Bob", none, 5, some 0⟩

/-- First historical event naming "Bob". -/
def bobEvent1 : SpawnEvent := ⟨"h1", "b1", 1000, "u1", false, "s1", none, ["Bob"]⟩

/-- Second historical event naming "Bob". -/
def bobEvent2 : SpawnEvent := ⟨"h2", "b1", 2000, "u1", false, "s1", none, ["Bob"]⟩

/-- Third historical event naming "Bob". -/
def bobEvent3 : SpawnEvent := ⟨"h3", "b1", 3000, "u1", false, "s1", none, ["Bob"]⟩

/-- Witness for C6: the member manually incremented to 5 ends with score
exactly `totalOccurrences "Bob" history = 3` after the recompute. -/
theorem claim6_recalculate_witness :
    ∃ c, findContribution
        (recalculateGuildContributions ["guildA"] "guildA"
          [bobEvent1, bobEvent2, bobEvent3] [bobRow]).1 "guildA" "Bob" = some c ∧
      c.contribution_score = (totalOccurrences "Bob" [bobEvent1, bobEvent2, bobEvent3] : ℤ) ∧
      ∃ dmax, c.last_event_date = some dmax ∧
        (∃ e ∈ [bobEvent1, bobEvent2, bobEvent3], "Bob" ∈ e.participants ∧ e.spawn_time = dmax) ∧
        (∀ e ∈ [bobEvent1, bobEvent2, bobEvent3], "Bob" ∈ e.participants → e.spawn_time ≤ dmax) :=
  (claim6_recalculate ["guildA"] "guildA" [bobEvent1, bobEvent2, bobEvent3] [bobRow]
    (by decide) (by decide)).2.1 "Bob" (by decide)

/-- An event whose participant list names "Alice" twice. -/
def dupNameEvent : SpawnEvent := ⟨"h4", "b1", 0, "u1", false, "s1", none, ["Alice", "Alice"]⟩

/-- C6 counterexample: an event listing "Alice" twice ends the recompute
with `contribution_score = 2`, while only 1 scanned event has "Alice" in
its participant list — the score tallies occurrences, not events. -/
theorem claim6_counterexample :
    (findContribution (recalculateGuildContributions ["guildA"] "guildA" [dupNameEvent] []).1
        "guildA" "Alice").map Contribution.contribution_score = some 2 ∧
    ([dupNameEvent].filter (fun e => e.participants.contains "Alice")).length = 1 ∧
    (2 : ℤ) ≠ 1 := by
  refine ⟨by decide, by decide, by decide⟩

end RotateMMO
